import Mathlib

/-!
Shallow embedding of the real-time chat client's conversation
synchronization core (conversation resolver, message store operations,
read-state reconciliation, typing-indicator upsert, unread aggregation,
subscription event handlers), translated from
`src/components/Chat/ChatWindow.jsx`, `src/hooks/useUnreadMessages.js`
and `src/components/Chat/MessageInput.jsx`.

Database rows are modelled as Lean structures; the backing store is a
list of rows.  Timestamps are natural numbers (each `new Date()` call in
the source becomes an explicit time parameter).  A PostgREST
`maybeSingle()` lookup is modelled faithfully: zero rows gives `none`,
one row gives `some`, two or more rows give an error.  Inserts into
tables carrying a uniqueness constraint check the constraint and fail
with `uniqueViolation` when it is violated, as the backing store does.
-/

namespace Chat

/-- A row of the `conversations` table. -/
structure Conversation where
  id : Nat
  participant_1 : Nat
  participant_2 : Nat
deriving DecidableEq, Repr

/-- A row of the `messages` table. -/
structure Message where
  id : Nat
  conversation_id : Nat
  sender_id : Nat
  content : String
  is_read : Bool
  delivered_at : Option Nat
  read_at : Option Nat
  created_at : Nat
deriving DecidableEq, Repr

/-- A row of the `typing_indicators` table. -/
structure TypingIndicator where
  id : Nat
  conversation_id : Nat
  user_id : Nat
  is_typing : Bool
  updated_at : Nat
deriving DecidableEq, Repr

/-- Errors surfaced by the backing store. -/
inductive DbError where
  | uniqueViolation
  | multipleRows
deriving DecidableEq, Repr

/-- Error taxonomy at the client: store errors are rethrown unchanged by
`getOrCreateConversation`; `validationError` exists in the taxonomy of
the design but is checked below whether the code ever produces it. -/
inductive ChatError where
  | dbError (e : DbError)
  | validationError
deriving DecidableEq, Repr

/-- The `.or(and(participant_1.eq.A,participant_2.eq.B),and(participant_1.eq.B,participant_2.eq.A))`
filter of the conversation lookup: the row matches the pair in either
stored order. -/
def convMatches (a b : Nat) (c : Conversation) : Bool :=
  (c.participant_1 == a && c.participant_2 == b) ||
    (c.participant_1 == b && c.participant_2 == a)

/-- `maybeSingle()` over the pair filter: `none` when no row matches,
the row when exactly one matches, an error when several match. -/
def lookupConversation (convs : List Conversation) (a b : Nat) :
    Except DbError (Option Conversation) :=
  match convs.filter (convMatches a b) with
  | [] => Except.ok none
  | [c] => Except.ok (some c)
  | _ :: _ :: _ => Except.error DbError.multipleRows

/-- Canonical key of the schema's uniqueness constraint on
`conversations`: UNIQUE on (min(p1,p2), max(p1,p2)). -/
def pairKey (c : Conversation) : Nat × Nat :=
  (min c.participant_1 c.participant_2, max c.participant_1 c.participant_2)

/-- Insert into `conversations`, enforcing the uniqueness constraint on
the canonicalized participant pair. -/
def insertConversation (convs : List Conversation) (c : Conversation) :
    Except DbError (List Conversation) :=
  if convs.any (fun d => pairKey d == pairKey c) then
    Except.error DbError.uniqueViolation
  else
    Except.ok (convs ++ [c])

/-- `getOrCreateConversation` from ChatWindow.jsx.  The lookup phase and
the insert phase run against two snapshots of the table: `convs0` is the
table at lookup time and `convs1` the table at insert time (rows
committed by a concurrent client between the two phases appear in
`convs1` only; sequential execution is the case `convs0 = convs1`).
The source rethrows every store error (`if (fetchError) throw fetchError`,
`if (createError) throw createError`); there is no retry. -/
def getOrCreateConversation (convs0 convs1 : List Conversation)
    (userId selectedId newId : Nat) :
    Except ChatError (Nat × List Conversation) :=
  match lookupConversation convs0 userId selectedId with
  | Except.error e => Except.error (ChatError.dbError e)
  | Except.ok (some existing) => Except.ok (existing.id, convs1)
  | Except.ok none =>
    match insertConversation convs1
        { id := newId, participant_1 := userId, participant_2 := selectedId } with
    | Except.error e => Except.error (ChatError.dbError e)
    | Except.ok convs2 => Except.ok (newId, convs2)

/-- `markMessageAsRead` from ChatWindow.jsx: update every `messages` row
whose `id` equals `messageId`, setting `is_read` to true and `read_at`
to the current time.  The update is unconditional: it does not test the
row's current read state. -/
def markMessageAsRead (msgs : List Message) (messageId t : Nat) : List Message :=
  msgs.map fun m =>
    if m.id == messageId then { m with is_read := true, read_at := some t } else m

/-- The sequential `for (const msg of unreadMessages) await markMessageAsRead(msg.id)`
loop of `loadMessages`: one store round trip per id, each at a strictly
later time than the previous one. -/
def markAllRead (msgs : List Message) (ids : List Nat) (t : Nat) : List Message :=
  match ids with
  | [] => msgs
  | i :: rest => markAllRead (markMessageAsRead msgs i t) rest (t + 1)

/-- The history query of `loadMessages`: rows of the conversation in
ascending `created_at` order. -/
def historyOf (msgs : List Message) (convId : Nat) : List Message :=
  (msgs.filter (fun m => m.conversation_id == convId)).insertionSort
    (fun m1 m2 => m1.created_at ≤ m2.created_at)

/-- `loadMessages` from ChatWindow.jsx: load the conversation's history
in ascending creation order, then mark as read every loaded message with
`sender_id ≠ user.id` and `is_read = false`, sequentially.  Returns the
loaded history (the local state set by `setMessages`) together with the
`messages` table after the marking pass. -/
def loadMessages (msgs : List Message) (uid convId t : Nat) :
    List Message × List Message :=
  let data := historyOf msgs convId
  let unreadMessages := data.filter (fun m => m.sender_id != uid && !m.is_read)
  (data, markAllRead msgs (unreadMessages.map Message.id) t)

/-- Strip leading whitespace characters from a character list. -/
def dropLeadingWs : List Char → List Char
  | [] => []
  | c :: cs => if c.isWhitespace then dropLeadingWs cs else c :: cs

/-- JavaScript's `String.prototype.trim()`: strip leading and trailing
whitespace.  Modelled over the underlying character list (trailing side
handled by reversing) so that it evaluates by kernel reduction. -/
def trimStr (s : String) : String :=
  ⟨(dropLeadingWs (dropLeadingWs s.data.reverse).reverse)⟩

/-- `handleSendMessage` from ChatWindow.jsx.  The guard
`if (!conversationId || !content.trim()) return;` silently does nothing
for a missing conversation or blank content; otherwise it inserts a row
with the trimmed content and `delivered_at` set to the current time.
The inserted row's `id` and `created_at` are server-assigned;
`is_read = false` and `read_at = null` are the `messages` table defaults
of the schema. -/
def handleSendMessage (conversationId : Option Nat) (content : String)
    (msgs : List Message) (uid newId t : Nat) :
    Except ChatError (List Message) :=
  match conversationId with
  | none => Except.ok msgs
  | some cid =>
    if trimStr content = "" then Except.ok msgs
    else
      Except.ok (msgs ++ [⟨newId, cid, uid, trimStr content, false, some t, none, t⟩])

/-- The guard of `MessageInput.handleSubmit`:
`if (!message.trim() || disabled) return;` — a blank or disabled submit
calls `onSendMessage` with nothing (`none`); otherwise `onSendMessage`
receives the trimmed message. -/
def handleSubmit (message : String) (disabled : Bool) : Option String :=
  if trimStr message = "" || disabled then none else some (trimStr message)

/-- The `INSERT` handler of the conversation-scoped messages channel:
`setMessages(prev => [...prev, payload.new])` appends the incoming row
unconditionally; then, when the sender is not the current user,
`markMessageAsRead(payload.new.id)` runs against the store.  Returns the
new local list and the new `messages` table. -/
def onInsertEvent (localMsgs dbMsgs : List Message) (incoming : Message)
    (uid t : Nat) : List Message × List Message :=
  (localMsgs ++ [incoming],
    if incoming.sender_id != uid then markMessageAsRead dbMsgs incoming.id t
    else dbMsgs)

/-- The `UPDATE` handler of the conversation-scoped messages channel:
`prev.map(msg => msg.id === payload.new.id ? payload.new : msg)` —
replace in place by id; an id not present locally changes nothing. -/
def onUpdateEvent (localMsgs : List Message) (incoming : Message) : List Message :=
  localMsgs.map fun msg => if msg.id == incoming.id then incoming else msg

/-- The `conversations` query of `fetchUnreadCounts`:
`.or(participant_1.eq.uid,participant_2.eq.uid)`. -/
def isParticipant (uid : Nat) (c : Conversation) : Bool :=
  c.participant_1 == uid || c.participant_2 == uid

/-- `conv.participant_1 === user.id ? conv.participant_2 : conv.participant_1`. -/
def otherParticipant (uid : Nat) (c : Conversation) : Nat :=
  if c.participant_1 == uid then c.participant_2 else c.participant_1

/-- The per-conversation count query of `fetchUnreadCounts`:
messages of the conversation with `is_read = false` and
`sender_id ≠ uid`. -/
def countUnread (msgs : List Message) (convId uid : Nat) : Nat :=
  (msgs.filter (fun m =>
    m.conversation_id == convId && !m.is_read && m.sender_id != uid)).length

/-- JavaScript object assignment `counts[k] = v`: overwrite the value
when the key exists, append the key otherwise. -/
def objSet (counts : List (Nat × Nat)) (k v : Nat) : List (Nat × Nat) :=
  if counts.any (fun kv => kv.1 == k) then
    counts.map (fun kv => if kv.1 == k then (k, v) else kv)
  else counts ++ [(k, v)]

/-- JavaScript object read `counts[k]`. -/
def objGet (counts : List (Nat × Nat)) (k : Nat) : Option Nat :=
  (counts.find? (fun kv => kv.1 == k)).map Prod.snd

/-- `fetchUnreadCounts` from useUnreadMessages.js: list the current
user's conversations, and for each one store under the peer's id the
count of unread messages not sent by the current user. -/
def fetchUnreadCounts (convs : List Conversation) (msgs : List Message)
    (uid : Nat) : List (Nat × Nat) :=
  (convs.filter (isParticipant uid)).foldl
    (fun counts c => objSet counts (otherParticipant uid c) (countUnread msgs c.id uid))
    []

/-- The `(conversation_id, user_id)` filter of the typing-indicator
lookup, and the column pair of the schema's UNIQUE constraint on
`typing_indicators`. -/
def typingMatches (convId uid : Nat) (r : TypingIndicator) : Bool :=
  r.conversation_id == convId && r.user_id == uid

/-- `maybeSingle()` over the `(conversation_id, user_id)` filter. -/
def lookupTyping (rows : List TypingIndicator) (convId uid : Nat) :
    Except DbError (Option TypingIndicator) :=
  match rows.filter (typingMatches convId uid) with
  | [] => Except.ok none
  | [r] => Except.ok (some r)
  | _ :: _ :: _ => Except.error DbError.multipleRows

/-- Insert into `typing_indicators`, enforcing the UNIQUE constraint on
`(conversation_id, user_id)`. -/
def insertTyping (rows : List TypingIndicator) (r : TypingIndicator) :
    Except DbError (List TypingIndicator) :=
  if rows.any (typingMatches r.conversation_id r.user_id) then
    Except.error DbError.uniqueViolation
  else Except.ok (rows ++ [r])

/-- `updateTypingIndicator` from ChatWindow.jsx: look up the existing
row for `(conversationId, user.id)`; if present, update `is_typing` and
`updated_at` on the row with that id; if absent, insert a new row.  The
source destructures only `data` from the lookup (a lookup error is not
checked and behaves as "no row"), so the error case falls through to the
insert branch. -/
def updateTypingIndicator (rows : List TypingIndicator) (convId uid : Nat)
    (typing : Bool) (newId t : Nat) : Except DbError (List TypingIndicator) :=
  let existing : Option TypingIndicator :=
    match lookupTyping rows convId uid with
    | Except.ok (some r) => some r
    | _ => none
  match existing with
  | some r =>
    Except.ok (rows.map fun s =>
      if s.id == r.id then { s with is_typing := typing, updated_at := t } else s)
  | none =>
    insertTyping rows
      { id := newId, conversation_id := convId, user_id := uid,
        is_typing := typing, updated_at := t }

/-- The read-state invariant of the data model: `is_read` mirrors
whether `read_at` is set. -/
def readInvariant (msgs : List Message) : Prop :=
  ∀ m ∈ msgs, m.is_read = m.read_at.isSome

/-- The schema invariant backing `maybeSingle` on `typing_indicators`:
at most one row per `(conversation_id, user_id)` pair. -/
def typingInvariant (rows : List TypingIndicator) : Prop :=
  ∀ convId uid : Nat, (rows.filter (typingMatches convId uid)).length ≤ 1

/-! ## Conversation resolver -/

theorem convMatches_symm (a b : Nat) (c : Conversation) :
    convMatches a b c = convMatches b a c := by
  simp [convMatches, Bool.or_comm]

theorem lookupConversation_symm (convs : List Conversation) (a b : Nat) :
    lookupConversation convs a b = lookupConversation convs b a := by
  unfold lookupConversation
  rw [List.filter_congr (fun c _ => convMatches_symm a b c)]

theorem convMatches_self_left (a b n : Nat) :
    convMatches a b ⟨n, a, b⟩ = true := by
  simp [convMatches]

theorem convMatches_self_right (a b n : Nat) :
    convMatches b a ⟨n, a, b⟩ = true := by
  simp [convMatches]

/-- C2: the resolver is symmetric and idempotent.  If a resolve for
(a, b) succeeded (sequentially: lookup and insert see the same table),
returning id `cid` and leaving the table in state `convs'`, then a later
resolve for (b, a) — and likewise a repeated resolve for (a, b) — with
any fresh id `m` returns the same `cid` and leaves the table unchanged:
the lookup matches the pair in either stored order before any insert is
attempted, so no second conversation is created. -/
theorem getOrCreateConversation_symm_idempotent
    (convs convs' : List Conversation) (a b n m cid : Nat)
    (h : getOrCreateConversation convs convs a b n = Except.ok (cid, convs')) :
    getOrCreateConversation convs' convs' b a m = Except.ok (cid, convs') ∧
    getOrCreateConversation convs' convs' a b m = Except.ok (cid, convs') := by
  unfold getOrCreateConversation at h ⊢
  unfold lookupConversation at h ⊢
  rcases hfilter : convs.filter (convMatches a b) with _ | ⟨c, _ | ⟨c2, rest⟩⟩
  · rw [hfilter] at h
    simp only [insertConversation] at h
    by_cases hany : convs.any (fun d => pairKey d == pairKey ⟨n, a, b⟩)
    · rw [if_pos hany] at h
      exact absurd h (by simp)
    · rw [if_neg hany] at h
      simp only [Except.ok.injEq, Prod.mk.injEq] at h
      obtain ⟨hcid, hconvs⟩ := h
      subst hcid
      subst hconvs
      have hba : (convs ++ [(⟨n, a, b⟩ : Conversation)]).filter (convMatches b a) =
          [(⟨n, a, b⟩ : Conversation)] := by
        rw [List.filter_append,
          List.filter_congr (fun c _ => (convMatches_symm a b c).symm), hfilter]
        simp [convMatches_self_right]
      have hab : (convs ++ [(⟨n, a, b⟩ : Conversation)]).filter (convMatches a b) =
          [(⟨n, a, b⟩ : Conversation)] := by
        rw [List.filter_append, hfilter]
        simp [convMatches_self_left]
      rw [hba, hab]
      exact ⟨rfl, rfl⟩
  · rw [hfilter] at h
    simp only [Except.ok.injEq, Prod.mk.injEq] at h
    obtain ⟨hcid, hconvs⟩ := h
    subst hconvs
    have hba : convs.filter (convMatches b a) = [c] := by
      rw [List.filter_congr (fun c _ => (convMatches_symm a b c).symm)]
      exact hfilter
    subst hcid
    rw [hba, hfilter]
    exact ⟨rfl, rfl⟩
  · rw [hfilter] at h
    exact absurd h (by simp)

/-- C2 witness: in an empty table, resolving (1, 2) creates conversation
5; thereafter resolving (2, 1) or (1, 2) again returns 5 with the table
unchanged. -/
theorem getOrCreateConversation_symm_idempotent_witness :
    getOrCreateConversation [⟨5, 1, 2⟩] [⟨5, 1, 2⟩] 2 1 9 =
      Except.ok (5, [⟨5, 1, 2⟩]) ∧
    getOrCreateConversation [⟨5, 1, 2⟩] [⟨5, 1, 2⟩] 1 2 9 =
      Except.ok (5, [⟨5, 1, 2⟩]) :=
  getOrCreateConversation_symm_idempotent [] [⟨5, 1, 2⟩] 1 2 5 9 5 rfl

/-- C1 counterexample: a concurrent first contact.  The lookup runs
against an empty table, a concurrent client then commits conversation 7
for the pair (1, 2), and the insert of conversation 8 hits the
uniqueness constraint.  The resolver propagates the uniqueness-violation
error instead of retrying the lookup and returning 7: there is no retry
loop and no `ConflictRetryExhausted` in the source. -/
theorem getOrCreateConversation_no_retry_counterexample :
    getOrCreateConversation [] [⟨7, 1, 2⟩] 1 2 8 =
      Except.error (ChatError.dbError DbError.uniqueViolation) := rfl

/-- C1 amended: whenever the lookup finds no conversation and the insert
then violates the uniqueness constraint (a concurrent client created the
conversation between the two phases), `getOrCreateConversation`
propagates the store's uniqueness-violation error to its caller; it
never retries the lookup, and no `ConflictRetryExhausted` error exists. -/
theorem getOrCreateConversation_propagates_conflict
    (convs0 convs1 : List Conversation) (a b n : Nat)
    (hlook : lookupConversation convs0 a b = Except.ok none)
    (hconf : convs1.any (fun d =>
      pairKey d == pairKey ⟨n, a, b⟩) = true) :
    getOrCreateConversation convs0 convs1 a b n =
      Except.error (ChatError.dbError DbError.uniqueViolation) := by
  unfold getOrCreateConversation
  rw [hlook]
  unfold insertConversation
  rw [if_pos hconf]

/-- C1 amended, witness: lookup against the empty table finds nothing
and conversation 7 for the pair (1, 2) conflicts with the insert. -/
theorem getOrCreateConversation_propagates_conflict_witness :
    getOrCreateConversation [⟨9, 3, 4⟩] [⟨9, 3, 4⟩, ⟨7, 2, 1⟩] 1 2 8 =
      Except.error (ChatError.dbError DbError.uniqueViolation) :=
  getOrCreateConversation_propagates_conflict [⟨9, 3, 4⟩]
    [⟨9, 3, 4⟩, ⟨7, 2, 1⟩] 1 2 8 rfl rfl

/-! ## Read marking -/

/-- C5 counterexample: `markMessageAsRead` is not idempotent on
`read_at`.  Marking message 1 at time 5 and again at time 9 does not
produce the state of marking it once: the second call overwrites
`read_at` (some 5 becomes some 9), because the update is unconditional
and always writes the current time. -/
theorem markMessageAsRead_not_idempotent_counterexample :
    markMessageAsRead (markMessageAsRead
        [⟨1, 1, 2, "hi", false, some 0, none, 0⟩] 1 5) 1 9 ≠
      markMessageAsRead [⟨1, 1, 2, "hi", false, some 0, none, 0⟩] 1 5 ∧
    (markMessageAsRead (markMessageAsRead
        [⟨1, 1, 2, "hi", false, some 0, none, 0⟩] 1 5) 1 9).map Message.read_at =
      [some 9] ∧
    (markMessageAsRead
        [⟨1, 1, 2, "hi", false, some 0, none, 0⟩] 1 5).map Message.read_at =
      [some 5] := by
  refine ⟨?_, rfl, rfl⟩
  intro h
  have := congrArg (List.map Message.read_at) h
  simp [markMessageAsRead] at this

/-- C5 amended: two successive `markMessageAsRead` calls on the same id
collapse to the second call alone (last write wins): the message stays
read and no error occurs, but the second call overwrites `read_at` with
its own timestamp, so the final state equals that of a single call only
when both calls carry the same timestamp. -/
theorem markMessageAsRead_twice (msgs : List Message) (mid t1 t2 : Nat) :
    markMessageAsRead (markMessageAsRead msgs mid t1) mid t2 =
      markMessageAsRead msgs mid t2 := by
  unfold markMessageAsRead
  rw [List.map_map]
  refine List.map_congr_left fun m _ => ?_
  by_cases h : m.id = mid
  · simp [h]
  · simp [h]

/-! ## Subscription event reconciliation -/

/-- C6 counterexample: the INSERT handler does not merge by id.  With a
message of id 1 already present locally, an INSERT event carrying id 1
(an updated copy) is appended, leaving two entries with id 1, instead of
replacing in place as the claimed merge rule would; and an UPDATE event
whose id is absent locally is dropped, not appended. -/
theorem insert_handler_no_merge_counterexample :
    (onInsertEvent [⟨1, 1, 2, "a", false, some 0, none, 0⟩] []
        ⟨1, 1, 2, "b", false, some 0, none, 0⟩ 2 0).1 =
      [⟨1, 1, 2, "a", false, some 0, none, 0⟩,
       ⟨1, 1, 2, "b", false, some 0, none, 0⟩] ∧
    (onInsertEvent [⟨1, 1, 2, "a", false, some 0, none, 0⟩] []
        ⟨1, 1, 2, "b", false, some 0, none, 0⟩ 2 0).1 ≠
      [⟨1, 1, 2, "b", false, some 0, none, 0⟩] ∧
    onUpdateEvent [] ⟨3, 1, 2, "c", false, some 0, none, 0⟩ = [] ∧
    onUpdateEvent [] ⟨3, 1, 2, "c", false, some 0, none, 0⟩ ≠
      [⟨3, 1, 2, "c", false, some 0, none, 0⟩] := by
  refine ⟨rfl, ?_, rfl, ?_⟩ <;> intro h <;>
    simpa [onInsertEvent, onUpdateEvent] using congrArg List.length h

/-- C6 amended: the reconciliation rules of the two handlers differ.
The UPDATE handler merges by id: when the event's id is present locally,
the matching entries are replaced in place (the incoming row becomes a
member and the id sequence is unchanged), and when the id is absent the
list is unchanged (the row is not appended).  The INSERT handler appends
unconditionally: the local list always grows by one with the incoming
row last, even when its id is already present. -/
theorem event_reconciliation (localMsgs dbMsgs : List Message)
    (incoming : Message) (uid t : Nat) :
    ((onInsertEvent localMsgs dbMsgs incoming uid t).1.length =
        localMsgs.length + 1 ∧
      (onInsertEvent localMsgs dbMsgs incoming uid t).1.getLast? =
        some incoming) ∧
    (incoming.id ∈ localMsgs.map Message.id →
      incoming ∈ onUpdateEvent localMsgs incoming ∧
      (onUpdateEvent localMsgs incoming).map Message.id =
        localMsgs.map Message.id) ∧
    (incoming.id ∉ localMsgs.map Message.id →
      onUpdateEvent localMsgs incoming = localMsgs) := by
  refine ⟨⟨by simp [onInsertEvent], by simp [onInsertEvent]⟩, ?_, ?_⟩
  · intro hmem
    obtain ⟨x, hx, hxid⟩ := List.mem_map.mp hmem
    constructor
    · refine List.mem_map.mpr ⟨x, hx, ?_⟩
      simp [hxid]
    · unfold onUpdateEvent
      rw [List.map_map]
      refine List.map_congr_left fun m _ => ?_
      by_cases h : m.id = incoming.id
      · simp [h]
      · simp [h]
  · intro hmem
    unfold onUpdateEvent
    have : ∀ m ∈ localMsgs, (if m.id == incoming.id then incoming else m) = m := by
      intro m hm
      have : m.id ≠ incoming.id := fun he => hmem (he ▸ List.mem_map_of_mem Message.id hm)
      simp [this]
    rw [List.map_congr_left this]
    simp

/-- C6 amended, witness: an UPDATE for id 1 replaces the stale copy in
place, and an INSERT for an already-present id still appends. -/
theorem event_reconciliation_witness :
    ((onInsertEvent [⟨1, 1, 2, "a", false, some 0, none, 0⟩] []
        ⟨1, 1, 2, "b", false, some 0, none, 0⟩ 2 0).1.length =
      [(⟨1, 1, 2, "a", false, some 0, none, 0⟩ : Message)].length + 1 ∧
      (onInsertEvent [⟨1, 1, 2, "a", false, some 0, none, 0⟩] []
        ⟨1, 1, 2, "b", false, some 0, none, 0⟩ 2 0).1.getLast? =
      some ⟨1, 1, 2, "b", false, some 0, none, 0⟩) ∧
    ((⟨1, 1, 2, "b", false, some 0, none, 0⟩ : Message) ∈
        onUpdateEvent [⟨1, 1, 2, "a", false, some 0, none, 0⟩]
          ⟨1, 1, 2, "b", false, some 0, none, 0⟩ ∧
      (onUpdateEvent [⟨1, 1, 2, "a", false, some 0, none, 0⟩]
          ⟨1, 1, 2, "b", false, some 0, none, 0⟩).map Message.id =
        [⟨1, 1, 2, "a", false, some 0, none, 0⟩].map Message.id) :=
  ⟨(event_reconciliation [⟨1, 1, 2, "a", false, some 0, none, 0⟩] []
      ⟨1, 1, 2, "b", false, some 0, none, 0⟩ 2 0).1,
   (event_reconciliation [⟨1, 1, 2, "a", false, some 0, none, 0⟩] []
      ⟨1, 1, 2, "b", false, some 0, none, 0⟩ 2 0).2.1 (by simp)⟩

/-! ## Sending -/

/-- C8 counterexample: sending whitespace-only content performs no store
write but succeeds silently — the guard returns without raising any
error, so no `ValidationError` is produced; the input layer's submit
guard likewise drops the blank message silently. -/
theorem handleSendMessage_blank_counterexample :
    handleSendMessage (some 1) "   " [] 1 5 0 = Except.ok [] ∧
    handleSendMessage (some 1) "   " [] 1 5 0 ≠
      Except.error ChatError.validationError ∧
    handleSubmit "   " false = none := by
  refine ⟨rfl, ?_, rfl⟩
  intro h
  exact absurd (congrArg Except.isOk h) (by decide)

/-- C8 amended: content that is empty after trimming results in no store
write and no error — both the send operation and the input layer's
submit guard return silently; for non-blank content the persisted
message carries the trimmed content and a non-null `delivered_at` set to
the send time. -/
theorem handleSendMessage_validation (cid : Nat) (content : String)
    (msgs : List Message) (uid newId t : Nat) :
    (trimStr content = "" →
      handleSendMessage (some cid) content msgs uid newId t = Except.ok msgs ∧
      handleSubmit content false = none) ∧
    (trimStr content ≠ "" →
      handleSendMessage (some cid) content msgs uid newId t =
        Except.ok (msgs ++
          [⟨newId, cid, uid, trimStr content, false, some t, none, t⟩]) ∧
      handleSubmit content false = some (trimStr content)) := by
  constructor
  · intro h
    exact ⟨by simp [handleSendMessage, h], by simp [handleSubmit, h]⟩
  · intro h
    exact ⟨by simp [handleSendMessage, h], by simp [handleSubmit, h]⟩

/-- C8 amended, witness: sending "  hi  " in conversation 1 persists the
trimmed "hi" with `delivered_at` set, and sending "   " writes nothing. -/
theorem handleSendMessage_validation_witness :
    (handleSendMessage (some 1) "  hi  " [] 4 5 9 =
        Except.ok [⟨5, 1, 4, "hi", false, some 9, none, 9⟩] ∧
      handleSubmit "  hi  " false = some "hi") ∧
    (handleSendMessage (some 1) "   " [] 4 5 9 = Except.ok [] ∧
      handleSubmit "   " false = none) :=
  ⟨(handleSendMessage_validation 1 "  hi  " [] 4 5 9).2 (by decide),
   (handleSendMessage_validation 1 "   " [] 4 5 9).1 (by decide)⟩

/-! ## Read-state invariant -/

theorem readInvariant_mark (msgs : List Message) (mid t : Nat)
    (h : readInvariant msgs) : readInvariant (markMessageAsRead msgs mid t) := by
  intro m' hm'
  obtain ⟨m, hm, hEq⟩ := List.mem_map.mp hm'
  by_cases hid : m.id == mid
  · rw [if_pos hid] at hEq
    subst hEq
    rfl
  · rw [if_neg hid] at hEq
    subst hEq
    exact h m hm

theorem readInvariant_markAllRead (ids : List Nat) (msgs : List Message) (t : Nat)
    (h : readInvariant msgs) : readInvariant (markAllRead msgs ids t) := by
  induction ids generalizing msgs t with
  | nil => exact h
  | cons i rest ih =>
    exact ih (markMessageAsRead msgs i t) (t + 1) (readInvariant_mark msgs i t h)

/-- C9: every store operation touching read state preserves the mirror
invariant `is_read = (read_at ≠ null)`.  A freshly appended message has
`is_read = false` and `read_at = null`; `markMessageAsRead` sets
`is_read = true` together with a non-null `read_at`; hence marking,
sending, and the read-reconciliation pass of `loadMessages` all preserve
the invariant, so it holds in every reachable store state. -/
theorem read_state_mirror_invariant (msgs : List Message)
    (convId : Option Nat) (content : String) (uid newId cid mid t : Nat)
    (h : readInvariant msgs) :
    readInvariant (markMessageAsRead msgs mid t) ∧
    (∀ msgs', handleSendMessage convId content msgs uid newId t = Except.ok msgs' →
      readInvariant msgs') ∧
    readInvariant (loadMessages msgs uid cid t).2 := by
  refine ⟨readInvariant_mark msgs mid t h, ?_, ?_⟩
  · intro msgs' hsend
    match convId with
    | none =>
      simp only [handleSendMessage, Except.ok.injEq] at hsend
      exact hsend ▸ h
    | some cid =>
      simp only [handleSendMessage] at hsend
      by_cases hblank : trimStr content = ""
      · rw [if_pos hblank] at hsend
        simp only [Except.ok.injEq] at hsend
        exact hsend ▸ h
      · rw [if_neg hblank] at hsend
        simp only [Except.ok.injEq] at hsend
        subst hsend
        intro m hm
        rcases List.mem_append.mp hm with hm | hm
        · exact h m hm
        · simp only [List.mem_singleton] at hm
          subst hm
          rfl
  · exact readInvariant_markAllRead _ msgs t h

/-- C9 witness: in a store holding one read and one fresh message, all
three operations preserve the mirror invariant. -/
theorem read_state_mirror_invariant_witness :
    readInvariant (markMessageAsRead
      [⟨1, 1, 2, "a", true, some 0, some 3, 0⟩,
       ⟨2, 1, 2, "b", false, some 1, none, 1⟩] 2 9) ∧
    (∀ msgs', handleSendMessage (some 1) "hi"
        [⟨1, 1, 2, "a", true, some 0, some 3, 0⟩,
         ⟨2, 1, 2, "b", false, some 1, none, 1⟩] 4 7 9 = Except.ok msgs' →
      readInvariant msgs') ∧
    readInvariant (loadMessages
      [⟨1, 1, 2, "a", true, some 0, some 3, 0⟩,
       ⟨2, 1, 2, "b", false, some 1, none, 1⟩] 4 7 9).2 :=
  read_state_mirror_invariant
    [⟨1, 1, 2, "a", true, some 0, some 3, 0⟩,
     ⟨2, 1, 2, "b", false, some 1, none, 1⟩] (some 1) "hi" 4 7 7 2 9
    (by
      intro m hm
      simp only [List.mem_cons, List.not_mem_nil, or_false] at hm
      rcases hm with rfl | rfl <;> rfl)

/-- C10: while the conversation subscription is open, an INSERT event
whose message was sent by the peer immediately triggers `markMessageAsRead`
on that message: every store row carrying the event's id becomes
`is_read = true` with `read_at` set to the marking time.  An INSERT
event for the current user's own message leaves the store untouched (no
`markMessageAsRead` call); in both cases the message is appended to the
local list. -/
theorem insert_event_marks_peer_message (localMsgs dbMsgs : List Message)
    (incoming : Message) (uid t : Nat) :
    (incoming.sender_id ≠ uid →
      ∀ m ∈ dbMsgs, m.id = incoming.id →
        ({ m with is_read := true, read_at := some t } : Message) ∈
          (onInsertEvent localMsgs dbMsgs incoming uid t).2) ∧
    (incoming.sender_id = uid →
      (onInsertEvent localMsgs dbMsgs incoming uid t).2 = dbMsgs) ∧
    (onInsertEvent localMsgs dbMsgs incoming uid t).1 = localMsgs ++ [incoming] := by
  refine ⟨?_, ?_, rfl⟩
  · intro hne m hm hid
    have hsend : (incoming.sender_id != uid) = true := by
      simpa using hne
    simp only [onInsertEvent, hsend, if_true]
    refine List.mem_map.mpr ⟨m, hm, ?_⟩
    simp [hid]
  · intro heq
    have hsend : (incoming.sender_id != uid) = false := by
      simpa using heq
    simp [onInsertEvent, hsend]

/-- C10 witness: an INSERT event for a peer message (sender 2 ≠ user 4)
marks store row 6 read at time 9; the same event for the user's own
message leaves the store unchanged. -/
theorem insert_event_marks_peer_message_witness :
    (({ (⟨6, 1, 2, "x", false, some 5, none, 5⟩ : Message) with
        is_read := true, read_at := some 9 } : Message) ∈
      (onInsertEvent [] [⟨6, 1, 2, "x", false, some 5, none, 5⟩]
        ⟨6, 1, 2, "x", false, some 5, none, 5⟩ 4 9).2) ∧
    (onInsertEvent [] [⟨6, 1, 2, "x", false, some 5, none, 5⟩]
      ⟨6, 1, 4, "y", false, some 5, none, 5⟩ 4 9).2 =
      [⟨6, 1, 2, "x", false, some 5, none, 5⟩] :=
  ⟨(insert_event_marks_peer_message [] [⟨6, 1, 2, "x", false, some 5, none, 5⟩]
      ⟨6, 1, 2, "x", false, some 5, none, 5⟩ 4 9).1 (by decide)
      ⟨6, 1, 2, "x", false, some 5, none, 5⟩ (by simp) rfl,
   (insert_event_marks_peer_message [] [⟨6, 1, 2, "x", false, some 5, none, 5⟩]
      ⟨6, 1, 4, "y", false, some 5, none, 5⟩ 4 9).2.1 rfl⟩

/-! ## Typing indicator upsert -/

theorem typingMatches_update_invariant (c u : Nat) (r : TypingIndicator)
    (typing : Bool) (t : Nat) (s : TypingIndicator) :
    typingMatches c u (if s.id == r.id then
      { s with is_typing := typing, updated_at := t } else s) =
    typingMatches c u s := by
  by_cases h : s.id == r.id
  · rw [if_pos h]
    rfl
  · rw [if_neg h]

/-- C7: `updateTypingIndicator` has upsert semantics.  From any store
satisfying the schema invariant (at most one `typing_indicators` row per
`(conversation_id, user_id)` pair), a call succeeds and leaves exactly
one row for the addressed pair, carrying the written `is_typing` value
and the call's `updated_at`; the invariant is preserved, so any sequence
of calls — e.g. true, then false twice — still leaves exactly one row
for the pair, with `is_typing` equal to the last value written. -/
theorem updateTypingIndicator_upsert (rows : List TypingIndicator)
    (convId uid : Nat) (typing : Bool) (newId t : Nat)
    (h : typingInvariant rows) :
    ∃ rows', updateTypingIndicator rows convId uid typing newId t = Except.ok rows' ∧
      (∃ r : TypingIndicator, rows'.filter (typingMatches convId uid) = [r] ∧
        r.conversation_id = convId ∧ r.user_id = uid ∧
        r.is_typing = typing ∧ r.updated_at = t) ∧
      typingInvariant rows' := by
  unfold updateTypingIndicator lookupTyping
  rcases hfilter : rows.filter (typingMatches convId uid) with _ | ⟨r, _ | ⟨r2, rest⟩⟩
  · have hnone : ∀ s ∈ rows, ¬ typingMatches convId uid s :=
      List.filter_eq_nil_iff.mp hfilter
    have hany : rows.any (typingMatches convId uid) = false := by
      rw [List.any_eq_false]
      exact fun s hs => by simpa using hnone s hs
    refine ⟨rows ++ [⟨newId, convId, uid, typing, t⟩], ?_, ?_, ?_⟩
    · simp only [insertTyping, hany]
      rfl
    · refine ⟨⟨newId, convId, uid, typing, t⟩, ?_, rfl, rfl, rfl, rfl⟩
      rw [List.filter_append, hfilter]
      simp [typingMatches]
    · intro c' u'
      rw [List.filter_append]
      by_cases hcu : c' = convId ∧ u' = uid
      · obtain ⟨hc, hu⟩ := hcu
        subst hc
        subst hu
        rw [hfilter]
        simp [typingMatches]
      · have : (⟨newId, convId, uid, typing, t⟩ : TypingIndicator).conversation_id
            = convId := rfl
        have hnew : typingMatches c' u' ⟨newId, convId, uid, typing, t⟩ = false := by
          simp only [typingMatches, Bool.and_eq_true, beq_iff_eq,
            Bool.and_eq_false_iff, beq_eq_false_iff_ne, ne_eq]
          by_cases hc : convId = c'
          · right
            intro hu
            exact hcu ⟨hc.symm, hu.symm⟩
          · left
            exact hc
        have : List.filter (typingMatches c' u') [⟨newId, convId, uid, typing, t⟩]
            = [] := by
          simp [hnew]
        rw [this]
        simpa using h c' u'
  · have hr : r ∈ rows.filter (typingMatches convId uid) := by
      rw [hfilter]
      exact List.mem_singleton_self r
    have hrmatch : typingMatches convId uid r = true := (List.mem_filter.mp hr).2
    refine ⟨rows.map (fun s => if s.id == r.id then
      { s with is_typing := typing, updated_at := t } else s), rfl, ?_, ?_⟩
    · have hcomm : ∀ c' u',
          (rows.map (fun s => if s.id == r.id then
            { s with is_typing := typing, updated_at := t } else s)).filter
              (typingMatches c' u') =
          (rows.filter (typingMatches c' u')).map (fun s => if s.id == r.id then
            { s with is_typing := typing, updated_at := t } else s) := by
        intro c' u'
        rw [List.filter_map]
        refine congrArg _ (List.filter_congr fun s _ => ?_)
        exact typingMatches_update_invariant c' u' r typing t s
      refine ⟨{ r with is_typing := typing, updated_at := t }, ?_, ?_, ?_, rfl, rfl⟩
      · rw [hcomm, hfilter]
        simp
      · simpa [typingMatches] using (Bool.and_elim_left
          (by simpa [typingMatches] using hrmatch : (r.conversation_id == convId)
            && (r.user_id == uid)))
      · simp only [typingMatches, Bool.and_eq_true, beq_iff_eq] at hrmatch
        exact hrmatch.2
    · intro c' u'
      have hco : List.filter
          (typingMatches c' u' ∘ fun s => if s.id == r.id then
            { s with is_typing := typing, updated_at := t } else s) rows =
          List.filter (typingMatches c' u') rows :=
        List.filter_congr fun s _ => typingMatches_update_invariant c' u' r typing t s
      rw [List.filter_map, hco, List.length_map]
      exact h c' u'
  · have := h convId uid
    rw [hfilter] at this
    simp at this

/-- C7 witness: with a single existing row (id 9) for the pair (1, 2)
set to true, writing false updates that row in place: exactly one row
remains for the pair, with `is_typing = false` and `updated_at = 4`. -/
theorem updateTypingIndicator_upsert_witness :
    ∃ rows', updateTypingIndicator [⟨9, 1, 2, true, 0⟩] 1 2 false 3 4 =
        Except.ok rows' ∧
      (∃ r : TypingIndicator, rows'.filter (typingMatches 1 2) = [r] ∧
        r.conversation_id = 1 ∧ r.user_id = 2 ∧
        r.is_typing = false ∧ r.updated_at = 4) ∧
      typingInvariant rows' :=
  updateTypingIndicator_upsert [⟨9, 1, 2, true, 0⟩] 1 2 false 3 4
    (fun c u => le_trans (List.length_filter_le _ _) (by simp))

/-! ## History load marks unread messages -/

theorem mark_preserves_other (xs : List Message) (i t : Nat) (m : Message)
    (hm : m ∈ xs) (hne : m.id ≠ i) : m ∈ markMessageAsRead xs i t := by
  have := List.mem_map_of_mem (fun m =>
    if m.id == i then { m with is_read := true, read_at := some t } else m) hm
  simpa [markMessageAsRead, hne] using this

theorem markAllRead_preserves (ids : List Nat) (xs : List Message) (t : Nat)
    (m : Message) (hm : m ∈ xs) (hni : m.id ∉ ids) :
    m ∈ markAllRead xs ids t := by
  induction ids generalizing xs t with
  | nil => exact hm
  | cons i rest ih =>
    have hne : m.id ≠ i := fun h => hni (h ▸ List.mem_cons_self i rest)
    exact ih (markMessageAsRead xs i t) (t + 1)
      (mark_preserves_other xs i t m hm hne)
      (fun h => hni (List.mem_cons_of_mem i h))

theorem markAllRead_marks (ids : List Nat) :
    ids.Nodup → ∀ (xs : List Message) (t : Nat) (m : Message), m ∈ xs →
    m.id ∈ ids →
    ∃ m' ∈ markAllRead xs ids t, m'.id = m.id ∧ m'.is_read = true ∧
      m'.read_at.isSome = true := by
  induction ids with
  | nil =>
    intro _ xs t m _ hmi
    cases hmi
  | cons i rest ih =>
    intro hnd xs t m hm hmi
    rcases List.nodup_cons.mp hnd with ⟨hnotin, hndrest⟩
    by_cases hid : m.id = i
    · have himg : ({ m with is_read := true, read_at := some t } : Message) ∈
          markMessageAsRead xs i t := by
        have := List.mem_map_of_mem (fun m =>
          if m.id == i then { m with is_read := true, read_at := some t } else m) hm
        simpa [markMessageAsRead, hid] using this
      have hstay := markAllRead_preserves rest (markMessageAsRead xs i t) (t + 1)
        ({ m with is_read := true, read_at := some t }) himg
        (by simpa [hid] using hnotin)
      exact ⟨{ m with is_read := true, read_at := some t }, hstay, rfl, rfl, rfl⟩
    · have hrest : m.id ∈ rest := by
        rcases List.mem_cons.mp hmi with h | h
        · exact absurd h hid
        · exact h
      exact ih hndrest (markMessageAsRead xs i t) (t + 1) m
        (mark_preserves_other xs i t m hm hid) hrest

theorem markAllRead_covers (convId uid : Nat) (ids : List Nat)
    (xs : List Message) (t : Nat)
    (hcov : ∀ m ∈ xs, m.conversation_id = convId → m.sender_id ≠ uid →
      m.is_read = false → m.id ∈ ids) :
    ∀ m' ∈ markAllRead xs ids t, m'.conversation_id = convId →
      m'.sender_id ≠ uid → m'.is_read = true := by
  induction ids generalizing xs t with
  | nil =>
    intro m' hm' hc hs
    by_cases hr : m'.is_read = true
    · exact hr
    · exact absurd (hcov m' hm' hc hs (Bool.eq_false_iff.mpr hr))
        (List.not_mem_nil m'.id)
  | cons i rest ih =>
    refine ih (markMessageAsRead xs i t) (t + 1) ?_
    intro m' hm' hc hs hf
    obtain ⟨m, hm, hEq⟩ := List.mem_map.mp hm'
    by_cases hid : m.id = i
    · rw [if_pos (by simpa using hid)] at hEq
      rw [← hEq] at hf
      cases hf
    · rw [if_neg (by simpa using hid)] at hEq
      subst hEq
      have hin := hcov m hm hc hs hf
      rcases List.mem_cons.mp hin with h | h
      · exact absurd h hid
      · exact h

theorem mem_historyOf (msgs : List Message) (convId : Nat) (m : Message) :
    m ∈ historyOf msgs convId ↔ m ∈ msgs ∧ m.conversation_id = convId := by
  unfold historyOf
  rw [(List.perm_insertionSort _ _).mem_iff, List.mem_filter]
  simp

/-- C4: after `loadMessages`, every message of the conversation that was
unread and sent by the peer appears in the store marked `is_read = true`
with `read_at` set; messages sent by the current user, messages already
read, and messages of other conversations are untouched (still present
unchanged); consequently the unread count of this conversation for the
current user drops to 0. -/
theorem loadMessages_marks_unread (msgs : List Message) (uid convId t : Nat)
    (hnodup : (msgs.map Message.id).Nodup) :
    (∀ m ∈ msgs, m.conversation_id = convId → m.sender_id ≠ uid →
      m.is_read = false →
      ∃ m' ∈ (loadMessages msgs uid convId t).2, m'.id = m.id ∧
        m'.is_read = true ∧ m'.read_at.isSome = true) ∧
    (∀ m ∈ msgs, m.sender_id = uid ∨ m.is_read = true ∨
      m.conversation_id ≠ convId → m ∈ (loadMessages msgs uid convId t).2) ∧
    countUnread (loadMessages msgs uid convId t).2 convId uid = 0 := by
  have hload : (loadMessages msgs uid convId t).2 =
      markAllRead msgs (((historyOf msgs convId).filter
        (fun m => m.sender_id != uid && !m.is_read)).map Message.id) t := rfl
  have hidsnd : (((historyOf msgs convId).filter
      (fun m => m.sender_id != uid && !m.is_read)).map Message.id).Nodup := by
    have h1 : ((msgs.filter (fun m => m.conversation_id == convId)).map
        Message.id).Nodup :=
      hnodup.sublist ((List.filter_sublist msgs).map Message.id)
    have h2 : ((historyOf msgs convId).map Message.id).Nodup :=
      (((List.perm_insertionSort _ _)).map Message.id).nodup_iff.mpr h1
    exact h2.sublist ((List.filter_sublist (historyOf msgs convId)).map Message.id)
  have hcov : ∀ m ∈ msgs, m.conversation_id = convId → m.sender_id ≠ uid →
      m.is_read = false → m.id ∈ ((historyOf msgs convId).filter
        (fun m => m.sender_id != uid && !m.is_read)).map Message.id := by
    intro m hm hc hs hf
    refine List.mem_map_of_mem Message.id (List.mem_filter.mpr
      ⟨(mem_historyOf msgs convId m).mpr ⟨hm, hc⟩, ?_⟩)
    simp [hs, hf]
  have hsound : ∀ i ∈ ((historyOf msgs convId).filter
      (fun m => m.sender_id != uid && !m.is_read)).map Message.id,
      ∃ m2 ∈ msgs, m2.id = i ∧ m2.sender_id ≠ uid ∧ m2.is_read = false ∧
        m2.conversation_id = convId := by
    intro i hi
    obtain ⟨m2, hm2, hid⟩ := List.mem_map.mp hi
    obtain ⟨hhist, hpred⟩ := List.mem_filter.mp hm2
    obtain ⟨hmem, hconv⟩ := (mem_historyOf msgs convId m2).mp hhist
    simp only [Bool.and_eq_true, bne_iff_ne, ne_eq, Bool.not_eq_true'] at hpred
    exact ⟨m2, hmem, hid, hpred.1, hpred.2, hconv⟩
  refine ⟨?_, ?_, ?_⟩
  · intro m hm hc hs hf
    rw [hload]
    exact markAllRead_marks _ hidsnd msgs t m hm (hcov m hm hc hs hf)
  · intro m hm hdisj
    rw [hload]
    refine markAllRead_preserves _ msgs t m hm ?_
    intro hin
    obtain ⟨m2, hm2, hid, hs2, hf2, hc2⟩ := hsound m.id hin
    have : m = m2 :=
      List.inj_on_of_nodup_map hnodup hm hm2 hid.symm
    subst this
    rcases hdisj with h | h | h
    · exact hs2 h
    · rw [h] at hf2
      cases hf2
    · exact h hc2
  · rw [hload]
    have hall := markAllRead_covers convId uid _ msgs t hcov
    unfold countUnread
    rw [List.filter_eq_nil_iff.mpr ?_]
    · rfl
    · intro m' hm' hp
      simp only [Bool.and_eq_true, beq_iff_eq, Bool.not_eq_true', bne_iff_ne,
        ne_eq] at hp
      obtain ⟨⟨hc2, hr2⟩, hs2⟩ := hp
      rw [hall m' hm' hc2 hs2] at hr2
      cases hr2

/-- C4 witness: a conversation with three unread peer messages and one
own message: all three get marked read with `read_at` set, the own
message survives unchanged, and the unread count drops to 0. -/
theorem loadMessages_marks_unread_witness :
    (∀ m ∈ [(⟨1, 1, 2, "a", false, some 0, none, 0⟩ : Message),
        ⟨2, 1, 2, "b", false, some 1, none, 1⟩,
        ⟨3, 1, 2, "c", false, some 2, none, 2⟩,
        ⟨4, 1, 4, "d", false, some 3, none, 3⟩],
      m.conversation_id = 1 → m.sender_id ≠ 4 → m.is_read = false →
      ∃ m' ∈ (loadMessages [⟨1, 1, 2, "a", false, some 0, none, 0⟩,
          ⟨2, 1, 2, "b", false, some 1, none, 1⟩,
          ⟨3, 1, 2, "c", false, some 2, none, 2⟩,
          ⟨4, 1, 4, "d", false, some 3, none, 3⟩] 4 1 9).2, m'.id = m.id ∧
        m'.is_read = true ∧ m'.read_at.isSome = true) ∧
    (∀ m ∈ [(⟨1, 1, 2, "a", false, some 0, none, 0⟩ : Message),
        ⟨2, 1, 2, "b", false, some 1, none, 1⟩,
        ⟨3, 1, 2, "c", false, some 2, none, 2⟩,
        ⟨4, 1, 4, "d", false, some 3, none, 3⟩],
      m.sender_id = 4 ∨ m.is_read = true ∨ m.conversation_id ≠ 1 →
      m ∈ (loadMessages [⟨1, 1, 2, "a", false, some 0, none, 0⟩,
          ⟨2, 1, 2, "b", false, some 1, none, 1⟩,
          ⟨3, 1, 2, "c", false, some 2, none, 2⟩,
          ⟨4, 1, 4, "d", false, some 3, none, 3⟩] 4 1 9).2) ∧
    countUnread (loadMessages [⟨1, 1, 2, "a", false, some 0, none, 0⟩,
        ⟨2, 1, 2, "b", false, some 1, none, 1⟩,
        ⟨3, 1, 2, "c", false, some 2, none, 2⟩,
        ⟨4, 1, 4, "d", false, some 3, none, 3⟩] 4 1 9).2 1 4 = 0 :=
  loadMessages_marks_unread [⟨1, 1, 2, "a", false, some 0, none, 0⟩,
    ⟨2, 1, 2, "b", false, some 1, none, 1⟩,
    ⟨3, 1, 2, "c", false, some 2, none, 2⟩,
    ⟨4, 1, 4, "d", false, some 3, none, 3⟩] 4 1 9 (by decide)

/-! ## Unread aggregation -/

theorem objSet_fresh (counts : List (Nat × Nat)) (k v : Nat)
    (h : ∀ kv ∈ counts, kv.1 ≠ k) : objSet counts k v = counts ++ [(k, v)] := by
  unfold objSet
  have hany : counts.any (fun kv => kv.1 == k) = false := by
    rw [List.any_eq_false]
    intro kv hkv
    simpa using h kv hkv
  rw [hany]
  simp

theorem foldl_objSet (keyfn valfn : Conversation → Nat) :
    ∀ (l : List Conversation) (acc : List (Nat × Nat)),
      (l.map keyfn).Nodup →
      (∀ c ∈ l, ∀ kv ∈ acc, kv.1 ≠ keyfn c) →
      l.foldl (fun a c => objSet a (keyfn c) (valfn c)) acc =
        acc ++ l.map (fun c => (keyfn c, valfn c)) := by
  intro l
  induction l with
  | nil =>
    intro acc _ _
    simp
  | cons c cl ih =>
    intro acc hnd hdis
    rcases List.nodup_cons.mp hnd with ⟨hknotin, hndcl⟩
    rw [List.foldl_cons, objSet_fresh acc (keyfn c) (valfn c)
      (fun kv hkv => hdis c (List.mem_cons_self c cl) kv hkv)]
    rw [ih (acc ++ [(keyfn c, valfn c)]) hndcl ?_]
    · simp
    · intro d hd kv hkv
      rcases List.mem_append.mp hkv with h | h
      · exact hdis d (List.mem_cons_of_mem c hd) kv h
      · simp only [List.mem_singleton] at h
        subst h
        intro hEq
        refine hknotin ?_
        rw [show keyfn c = keyfn d from hEq]
        exact List.mem_map_of_mem keyfn hd

theorem objGet_of_mem (keyfn valfn : Conversation → Nat) :
    ∀ (l : List Conversation), (l.map keyfn).Nodup → ∀ c ∈ l,
      objGet (l.map fun d => (keyfn d, valfn d)) (keyfn c) = some (valfn c) := by
  intro l
  induction l with
  | nil =>
    intro _ c hc
    cases hc
  | cons d dl ih =>
    intro hnd c hc
    rcases List.nodup_cons.mp hnd with ⟨hknotin, hnddl⟩
    rcases List.mem_cons.mp hc with rfl | hcl
    · unfold objGet
      rw [List.map_cons, List.find?_cons_of_pos _ (by simp)]
      rfl
    · have hne : keyfn d ≠ keyfn c :=
        fun hEq => hknotin (hEq ▸ List.mem_map_of_mem keyfn hcl)
      unfold objGet
      rw [List.map_cons, List.find?_cons_of_neg _ (by simpa using hne)]
      exact ih hnddl c hcl

theorem objGet_isSome_iff (lst : List (Nat × Nat)) (p : Nat) :
    (∃ n, objGet lst p = some n) ↔ ∃ kv ∈ lst, kv.1 = p := by
  constructor
  · rintro ⟨n, hn⟩
    unfold objGet at hn
    obtain ⟨kv, hfind, _⟩ := Option.map_eq_some'.mp hn
    refine ⟨kv, List.mem_of_find?_eq_some hfind, ?_⟩
    simpa using List.find?_some hfind
  · rintro ⟨kv, hkv, hp⟩
    have hs : (lst.find? (fun kv => kv.1 == p)).isSome :=
      List.find?_isSome.mpr ⟨kv, hkv, by simpa using hp⟩
    obtain ⟨kv2, h2⟩ := Option.isSome_iff_exists.mp hs
    exact ⟨kv2.2, by unfold objGet; rw [h2]; rfl⟩

theorem pairKey_of_participant (uid : Nat) (c : Conversation)
    (hpart : isParticipant uid c = true) :
    pairKey c = (min uid (otherParticipant uid c),
      max uid (otherParticipant uid c)) := by
  unfold pairKey otherParticipant
  by_cases h1 : c.participant_1 == uid
  · rw [if_pos h1]
    have : c.participant_1 = uid := by simpa using h1
    rw [this]
  · rw [if_neg h1]
    have h2 : c.participant_2 = uid := by
      have hpart' : c.participant_1 = uid ∨ c.participant_2 = uid := by
        simpa [isParticipant] using hpart
      rcases hpart' with h | h
      · exact absurd (by simp [h]) h1
      · exact h
    rw [h2, Nat.min_comm, Nat.max_comm]

/-- C3: `fetchUnreadCounts` returns a mapping whose domain is exactly
the peer users of the conversations in which the current user
participates, where each peer's value is the number of messages of that
conversation with `is_read = false` and a sender other than the current
user — so a peer with zero unread messages is present with value 0.
The hypotheses are the schema invariants of the `conversations` table:
no duplicate rows and at most one conversation per unordered pair. -/
theorem fetchUnreadCounts_spec (convs : List Conversation)
    (msgs : List Message) (uid : Nat) (hnd : convs.Nodup)
    (huniq : ∀ c ∈ convs, ∀ d ∈ convs, pairKey c = pairKey d → c = d) :
    (∀ p : Nat, (∃ n, objGet (fetchUnreadCounts convs msgs uid) p = some n) ↔
      (∃ c ∈ convs, isParticipant uid c = true ∧ otherParticipant uid c = p)) ∧
    (∀ c ∈ convs, isParticipant uid c = true →
      objGet (fetchUnreadCounts convs msgs uid) (otherParticipant uid c) =
        some (countUnread msgs c.id uid)) := by
  have hinj : ∀ c ∈ convs.filter (isParticipant uid),
      ∀ d ∈ convs.filter (isParticipant uid),
      otherParticipant uid c = otherParticipant uid d → c = d := by
    intro c hc d hd hEq
    have hc' := List.mem_filter.mp hc
    have hd' := List.mem_filter.mp hd
    exact huniq c hc'.1 d hd'.1
      (by rw [pairKey_of_participant uid c hc'.2,
        pairKey_of_participant uid d hd'.2, hEq])
  have hpeernd : ((convs.filter (isParticipant uid)).map
      (otherParticipant uid)).Nodup :=
    (hnd.filter _).map_on hinj
  have hclosed : fetchUnreadCounts convs msgs uid =
      (convs.filter (isParticipant uid)).map
        (fun c => (otherParticipant uid c, countUnread msgs c.id uid)) := by
    unfold fetchUnreadCounts
    rw [foldl_objSet (otherParticipant uid) (fun c => countUnread msgs c.id uid)
      _ [] hpeernd (by intro c _ kv hkv; cases hkv)]
    simp
  refine ⟨?_, ?_⟩
  · intro p
    rw [hclosed, objGet_isSome_iff]
    constructor
    · rintro ⟨kv, hkv, hp⟩
      obtain ⟨c, hc, hEq⟩ := List.mem_map.mp hkv
      obtain ⟨hcm, hcp⟩ := List.mem_filter.mp hc
      refine ⟨c, hcm, hcp, ?_⟩
      rw [← hp, ← hEq]
    · rintro ⟨c, hc, hcp, hop⟩
      exact ⟨(otherParticipant uid c, countUnread msgs c.id uid),
        List.mem_map_of_mem _ (List.mem_filter.mpr ⟨hc, hcp⟩), hop⟩
  · intro c hc hcp
    rw [hclosed]
    exact objGet_of_mem (otherParticipant uid)
      (fun d => countUnread msgs d.id uid) _ hpeernd c
      (List.mem_filter.mpr ⟨hc, hcp⟩)

/-- C3 witness: user 10 participates in conversations 1 (peer 20, one
unread message from the peer) and 2 (peer 30, all messages read, so the
peer is present with count 0); user 40's conversation 3 contributes no
key. -/
theorem fetchUnreadCounts_spec_witness :
    (∀ p : Nat, (∃ n, objGet (fetchUnreadCounts
        [⟨1, 10, 20⟩, ⟨2, 30, 10⟩, ⟨3, 40, 50⟩]
        [⟨1, 1, 20, "a", false, some 0, none, 0⟩,
         ⟨2, 1, 10, "b", false, some 0, none, 0⟩,
         ⟨3, 2, 30, "c", true, some 0, some 1, 0⟩] 10) p = some n) ↔
      (∃ c ∈ [(⟨1, 10, 20⟩ : Conversation), ⟨2, 30, 10⟩, ⟨3, 40, 50⟩],
        isParticipant 10 c = true ∧ otherParticipant 10 c = p)) ∧
    (∀ c ∈ [(⟨1, 10, 20⟩ : Conversation), ⟨2, 30, 10⟩, ⟨3, 40, 50⟩],
      isParticipant 10 c = true →
      objGet (fetchUnreadCounts [⟨1, 10, 20⟩, ⟨2, 30, 10⟩, ⟨3, 40, 50⟩]
        [⟨1, 1, 20, "a", false, some 0, none, 0⟩,
         ⟨2, 1, 10, "b", false, some 0, none, 0⟩,
         ⟨3, 2, 30, "c", true, some 0, some 1, 0⟩] 10) (otherParticipant 10 c) =
        some (countUnread [⟨1, 1, 20, "a", false, some 0, none, 0⟩,
          ⟨2, 1, 10, "b", false, some 0, none, 0⟩,
          ⟨3, 2, 30, "c", true, some 0, some 1, 0⟩] c.id 10)) :=
  fetchUnreadCounts_spec [⟨1, 10, 20⟩, ⟨2, 30, 10⟩, ⟨3, 40, 50⟩]
    [⟨1, 1, 20, "a", false, some 0, none, 0⟩,
     ⟨2, 1, 10, "b", false, some 0, none, 0⟩,
     ⟨3, 2, 30, "c", true, some 0, some 1, 0⟩] 10 (by decide) (by decide)

end Chat
